import Mathlib

/-!
Verification of the `prototype-translate-dir-cli` front end (`src/main.rs`)
against its natural-language specification.

The CLI resolves user-supplied file patterns (globs or literal paths) against
the filesystem, applies a marking action to every resolved path while
collecting per-item errors, and gates translation commands on the presence of
the `GOOGLE_API_KEY` environment variable.  The filesystem's glob behaviour
and the library project operations are external effects; they enter the
model as explicit function parameters, so every run of the embedded code is
a pure, deterministic computation over those parameters.
-/

namespace TDir

/-- A concrete filesystem path, standing for the `PathBuf` values the CLI
passes to the library. -/
abbrev Path := String

/-- One entry yielded by iterating a successful glob expansion: a matched
path (the `Ok(path)` arm) or a per-entry iteration error (the `Err(e)` arm)
of the `for entry in paths` loop in `process_file_patterns`
(src/main.rs:132-163). -/
inductive GlobEntry where
  | ok (p : Path)
  | err
  deriving DecidableEq, Repr

/-- Result of calling `glob(&pattern_str)` (src/main.rs:130): either the
pattern itself is malformed (`Err`, src/main.rs:166) or it yields a finite
sequence of entries in filesystem-glob order. -/
inductive GlobResult where
  | invalid
  | entries (es : List GlobEntry)
  deriving DecidableEq, Repr

/-- The metacharacter test of src/main.rs:177-180: the pattern contains one
of `*`, `?`, `[`, or an opening curly brace (the four `pattern_str.contains`
calls, phrased over the string's character list).  The literal-path fallback
runs only when this is `false`. -/
def containsMeta (s : String) : Bool :=
  s.data.any (· == '*') || s.data.any (· == '?') ||
    s.data.any (· == '[') || s.data.any (· == '\x7b')

/-- Accumulated outcome of the entry loop of `process_file_patterns` for one
pattern: the threaded project state, the successful and failed counts added,
whether any `Ok(path)` entry was seen (`pattern_matched_at_least_one_file`),
and the ordered list of paths the action was attempted on. -/
structure EntriesResult (σ : Type) where
  proj : σ
  succ : Nat
  errs : Nat
  matched : Bool
  attempted : List Path
  deriving Repr

/-- The entry loop of `process_file_patterns` (src/main.rs:132-164).  The
action `act` models the `action_fn` closure: it takes the project state and a
path and returns the updated state together with whether the call returned
`Ok`.  `Ok(path)` entries set the matched flag and attempt the action;
`Err(_)` entries only increment the error count. -/
def processEntries {σ : Type} (act : σ → Path → σ × Bool) (proj : σ) :
    List GlobEntry → EntriesResult σ
  | [] => ⟨proj, 0, 0, false, []⟩
  | .ok p :: rest =>
      let a := act proj p
      let r := processEntries act a.1 rest
      ⟨r.proj, (if a.2 then 1 else 0) + r.succ, (if a.2 then 0 else 1) + r.errs,
        true, p :: r.attempted⟩
  | .err :: rest =>
      let r := processEntries act proj rest
      ⟨r.proj, r.succ, 1 + r.errs, r.matched, r.attempted⟩

/-- Outcome of processing one whole pattern: counts added, whether the
pattern was pushed onto `no_match_patterns`, and the ordered paths the action
was attempted on (glob matches first, then the literal fallback if taken). -/
structure PatResult (σ : Type) where
  proj : σ
  succ : Nat
  errs : Nat
  noMatch : Option String
  attempted : List Path
  deriving Repr

/-- The body of the per-pattern loop of `process_file_patterns`
(src/main.rs:127-209).  A malformed pattern counts one error and is skipped
(`continue`, src/main.rs:170), so no literal fallback runs for it.  When the
glob matched nothing and the pattern has no metacharacter, the pattern string
itself is attempted once as a literal path (src/main.rs:176-205); when it
matched nothing but has a metacharacter it is recorded as a no-match
(src/main.rs:206-208). -/
def processOnePattern {σ : Type} (globFn : String → GlobResult)
    (act : σ → Path → σ × Bool) (proj : σ) (pat : String) : PatResult σ :=
  match globFn pat with
  | .invalid => ⟨proj, 0, 1, none, []⟩
  | .entries es =>
      let r := processEntries act proj es
      if !r.matched && !containsMeta pat then
        let a := act r.proj pat
        ⟨a.1, r.succ + (if a.2 then 1 else 0), r.errs + (if a.2 then 0 else 1),
          none, r.attempted ++ [pat]⟩
      else if !r.matched then
        ⟨r.proj, r.succ, r.errs, some pat, r.attempted⟩
      else
        ⟨r.proj, r.succ, r.errs, none, r.attempted⟩

/-- State accumulated by the loop over all patterns. -/
structure LoopResult (σ : Type) where
  proj : σ
  succ : Nat
  errs : Nat
  noMatch : List String
  attempted : List Path
  deriving Repr

/-- The loop over all patterns (src/main.rs:127-209), threading the project
state left to right and concatenating the per-pattern traces in input
order.  No-match patterns are collected in order for the warning pass that
follows the loop (src/main.rs:211-216). -/
def patternLoop {σ : Type} (globFn : String → GlobResult)
    (act : σ → Path → σ × Bool) (proj : σ) : List String → LoopResult σ
  | [] => ⟨proj, 0, 0, [], []⟩
  | pat :: rest =>
      let r1 := processOnePattern globFn act proj pat
      let r2 := patternLoop globFn act r1.proj rest
      ⟨r2.proj, r1.succ + r2.succ, r1.errs + r2.errs,
        r1.noMatch.toList ++ r2.noMatch, r1.attempted ++ r2.attempted⟩

/-- Observable outcome of one call to `process_file_patterns`: the final
project state, the summary tally printed at src/main.rs:218-221, the
no-match warnings printed after the loop, the ordered trace of every path
the action was attempted on, and whether the process exits with a non-zero
code (`exit(1)` at src/main.rs:222-224). -/
structure RunResult (σ : Type) where
  proj : σ
  successCount : Nat
  errorCount : Nat
  noMatchWarnings : List String
  attempted : List Path
  exitNonZero : Bool
  deriving Repr

/-- The whole of `process_file_patterns` (src/main.rs:112-225): run the
pattern loop, report the tally, and exit non-zero exactly when the error
count is positive. -/
def process_file_patterns {σ : Type} (globFn : String → GlobResult)
    (act : σ → Path → σ × Bool) (proj : σ) (pats : List String) : RunResult σ :=
  let l := patternLoop globFn act proj pats
  ⟨l.proj, l.succ, l.errs, l.noMatch, l.attempted, decide (0 < l.errs)⟩

/-- The ordered matched paths among a pattern's glob entries. -/
def entryPaths : List GlobEntry → List Path
  | [] => []
  | .ok p :: rest => p :: entryPaths rest
  | .err :: rest => entryPaths rest

/-- Whether any entry of the list is a matched path. -/
def anyOk : List GlobEntry → Bool
  | [] => false
  | .ok _ :: _ => true
  | .err :: rest => anyOk rest

/-- The paths the action is attempted on for a single pattern, as a pure
function of the glob behaviour alone: the glob matches in order, followed by
the pattern itself exactly when nothing matched and it has no
metacharacter.  A malformed pattern contributes nothing. -/
def patternTrace (globFn : String → GlobResult) (pat : String) : List Path :=
  match globFn pat with
  | .invalid => []
  | .entries es =>
      entryPaths es ++ (if !anyOk es && !containsMeta pat then [pat] else [])

/-- The language enumeration of the CLI (a closed `clap::ValueEnum` supplied
by `translate_dir_lib`; the exact variant set is immaterial here, spec
section 3: equality is by value over a fixed closed set). -/
inductive Language where
  | english
  | french
  | german
  | spanish
  deriving DecidableEq, Repr

/-- The `ProjectAction` subcommand enumeration (src/main.rs:32-77). -/
inductive ProjectAction where
  | setSource (dirName : String) (language : Language)
  | addTargetLang (language : Language)
  | removeTargetLang (language : Language)
  | sync
  | markTranslatable (filePatterns : List String)
  | markUntranslatable (filePatterns : List String)
  | listTranslatable
  | translateFile (filePath : Path) (targetLanguage : Language)
  | translateAll (targetLanguage : Language)
  | info
  deriving DecidableEq, Repr

/-- The `matches!` test of src/main.rs:232-235: the action is
`TranslateFile { .. }` or `TranslateAll { .. }`. -/
def isTranslateAction : ProjectAction → Bool
  | .translateFile _ _ => true
  | .translateAll _ => true
  | _ => false

/-- A call the CLI makes into the `translate_dir_lib` project object.  The
library's behaviour is opaque to the CLI; recording the calls made lets the
theorems speak about what the CLI invokes and in what order. -/
inductive LibCall where
  | setSourceDir (dirName : String) (language : Language)
  | addLang (language : Language)
  | removeLang (language : Language)
  | syncFiles
  | makeTranslatableFile (p : Path)
  | makeUntranslatableFile (p : Path)
  | getTranslatableFiles
  | translateFileCall (p : Path) (l : Language)
  | translateAllCall (l : Language)
  deriving DecidableEq, Repr

/-- Observable outcome of `handle_project_action`: the ordered library calls
made, how many times the `GOOGLE_API_KEY` environment variable was read, and
whether the process exits with a non-zero code. -/
structure HandleResult where
  calls : List LibCall
  envChecks : Nat
  exited : Bool
  deriving DecidableEq, Repr

/-- `handle_project_action` (src/main.rs:227-348).  `env` is the value of the
`GOOGLE_API_KEY` environment variable (`none` when unset); `libOk` tells
whether a given library call returns `Ok`.  For a translate action the
variable is read once, before dispatch, and an unset variable exits the
process before any library call (src/main.rs:232-240).  The two mark actions
run `process_file_patterns` with the corresponding library marking closure
(src/main.rs:276-291); the remaining actions make one library call and exit
non-zero when it fails (`Info` makes none). -/
def handle_project_action (env : Option String) (libOk : LibCall → Bool)
    (globFn : String → GlobResult) (a : ProjectAction) : HandleResult :=
  if isTranslateAction a && env.isNone then
    ⟨[], 1, true⟩
  else
    let n : Nat := if isTranslateAction a then 1 else 0
    match a with
    | .setSource d l => ⟨[.setSourceDir d l], n, !libOk (.setSourceDir d l)⟩
    | .addTargetLang l => ⟨[.addLang l], n, !libOk (.addLang l)⟩
    | .removeTargetLang l => ⟨[.removeLang l], n, !libOk (.removeLang l)⟩
    | .sync => ⟨[.syncFiles], n, !libOk .syncFiles⟩
    | .markTranslatable pats =>
        let r := process_file_patterns globFn
          (fun _ p => ((), libOk (.makeTranslatableFile p))) () pats
        ⟨r.attempted.map LibCall.makeTranslatableFile, n, r.exitNonZero⟩
    | .markUntranslatable pats =>
        let r := process_file_patterns globFn
          (fun _ p => ((), libOk (.makeUntranslatableFile p))) () pats
        ⟨r.attempted.map LibCall.makeUntranslatableFile, n, r.exitNonZero⟩
    | .listTranslatable => ⟨[.getTranslatableFiles], n, !libOk .getTranslatableFiles⟩
    | .translateFile p l => ⟨[.translateFileCall p l], n, !libOk (.translateFileCall p l)⟩
    | .translateAll l => ⟨[.translateAllCall l], n, !libOk (.translateAllCall l)⟩
    | .info => ⟨[], n, false⟩

/-- Manifest status of a source file (spec section 3, `ManifestEntry`). -/
inductive FileStatus where
  | translatable
  | untranslatable
  deriving DecidableEq, Repr

/-- The manifest: relative paths with their status, in insertion order. -/
abbrev Manifest := List (Path × FileStatus)

/-- Errors of the mark operation (spec section 4.2). -/
inductive MarkError where
  | notInSourceDirectory
  | fileNotFound
  deriving DecidableEq, Repr

/-- Modelled from the spec: the Manifest Store operation
`Project::make_translatable_file` / `make_untranslatable_file` lives in
`translate_dir_lib`, which is not under src/.  Spec section 4.2:
`mark(path, status)` requires the path to exist and lie within the source
directory, failing with `NotInSourceDirectory` or `FileNotFound` otherwise;
manifest keys are unique relative paths (section 3), re-marking overwrites
the status in place and marking a new path appends it. -/
def mark (existsOnDisk inSourceDir : Path → Bool) (m : Manifest) (p : Path)
    (st : FileStatus) : Except MarkError Manifest :=
  if !inSourceDir p then .error .notInSourceDirectory
  else if !existsOnDisk p then .error .fileNotFound
  else if m.any (fun e => e.1 == p) then
    .ok (m.map (fun e => if e.1 == p then (p, st) else e))
  else .ok (m ++ [(p, st)])

/-- Modelled from the spec: `Project::get_translatable_files` lives in
`translate_dir_lib`, which is not under src/.  Spec section 4.2:
`list_translatable()` returns the ordered sequence of relative paths with
status Translatable, in insertion order. -/
def list_translatable (m : Manifest) : List Path :=
  (m.filter (fun e => e.2 == FileStatus.translatable)).map Prod.fst

/-- Outcome of one provider call for one file (spec section 6: the external
translation provider returns translated content or a transient/permanent
error). -/
inductive ProviderOutcome where
  | ok
  | transient
  | permanent
  deriving DecidableEq, Repr

/-- Whether a provider outcome is a success. -/
def outcomeOk : ProviderOutcome → Bool
  | .ok => true
  | _ => false

/-- Aggregate result of `translate_all` (spec section 4.5): per-file
outcomes in submission order, the tally of successes and failures, and the
paths that failed. -/
structure TranslateAllResult where
  outcomes : List (Path × Bool)
  successes : Nat
  failures : Nat
  failedPaths : List Path
  deriving DecidableEq, Repr

/-- Modelled from the spec: `Project::translate_all` lives in
`translate_dir_lib`, which is not under src/.  Spec section 4.5: it applies
`translate_file` to every entry of `list_translatable()` in order; a single
file failure is recorded per-file and does not abort the remaining
submissions; the aggregate result reports counts of successes and failures
and which paths failed. -/
def translate_all (provider : Path → ProviderOutcome) :
    List Path → TranslateAllResult
  | [] => ⟨[], 0, 0, []⟩
  | p :: rest =>
      let okp := outcomeOk (provider p)
      let r := translate_all provider rest
      ⟨(p, okp) :: r.outcomes,
        (if okp then 1 else 0) + r.successes,
        (if okp then 0 else 1) + r.failures,
        (if okp then [] else [p]) ++ r.failedPaths⟩

/-- A provider that fails permanently on the second of three files, the
scenario of spec section 8: `translate_all` over 3 translatable files where
file 2 fails with `Permanent`. -/
def prov3 : Path → ProviderOutcome :=
  fun p => if p == ("file2") then ProviderOutcome.permanent else ProviderOutcome.ok

/-- A directory's files, each path carrying a content signature; only
lookups are observable, and an overwrite shadows the previous binding. -/
abbrev FileMap := List (Path × Nat)

/-- Content signature of `p` in the map, `none` when the file is absent. -/
def lookupFile : FileMap → Path → Option Nat
  | [], _ => none
  | (q, c) :: rest, p => if q == p then some c else lookupFile rest p

/-- Copy a file into the map, overwriting any previous content. -/
def writeFile (fs : FileMap) (p : Path) (c : Nat) : FileMap :=
  (p, c) :: fs

/-- Result of synchronizing one target directory: its updated files, the
number of copies performed, and the paths whose copy failed. -/
structure DirSync where
  fs : FileMap
  copies : Nat
  failed : List Path
  deriving Repr

/-- Modelled from the spec: the Synchronizer (`Project::sync_files`) lives in
`translate_dir_lib`, which is not under src/.  Spec section 4.4, step 1, for
one target directory: for each untranslatable manifest entry present in the
source, ensure a copy exists at the same relative path in the target,
copying (overwriting) when it is missing or its signature differs; an
individual copy error (`copyOk` false) is recorded and does not abort the
pass (step 3); files at other paths are left untouched (step 2). -/
def syncDir (copyOk : Path → Bool) (src : FileMap) (unt : List Path)
    (tfs : FileMap) : DirSync :=
  match unt with
  | [] => ⟨tfs, 0, []⟩
  | u :: rest =>
      match lookupFile src u with
      | none => syncDir copyOk src rest tfs
      | some c =>
          if lookupFile tfs u == some c then
            syncDir copyOk src rest tfs
          else if copyOk u then
            let r := syncDir copyOk src rest (writeFile tfs u c)
            ⟨r.fs, r.copies + 1, r.failed⟩
          else
            let r := syncDir copyOk src rest tfs
            ⟨r.fs, r.copies, u :: r.failed⟩

/-- Aggregate result of a synchronization pass over every target-language
directory. -/
structure SyncResult where
  targets : List (Language × FileMap)
  copies : Nat
  failed : List (Language × Path)
  deriving Repr

/-- Modelled from the spec: the Synchronizer pass over every configured
target-language directory (spec section 4.4); it returns success exactly
when no copy failed (step 3: otherwise an aggregate error listing failed
paths). -/
def sync_files (copyOk : Language → Path → Bool) (src : FileMap)
    (unt : List Path) : List (Language × FileMap) → SyncResult
  | [] => ⟨[], 0, []⟩
  | (l, tfs) :: rest =>
      let d := syncDir (copyOk l) src unt tfs
      let r := sync_files copyOk src unt rest
      ⟨(l, d.fs) :: r.targets, d.copies + r.copies,
        d.failed.map (fun p => (l, p)) ++ r.failed⟩

/-! Helper lemmas about the entry loop and the pattern loop. -/

/-- The paths the entry loop attempts are exactly the matched entries, in
order, whatever the action does. -/
lemma processEntries_attempted {σ : Type} (act : σ → Path → σ × Bool) (proj : σ)
    (es : List GlobEntry) :
    (processEntries act proj es).attempted = entryPaths es := by
  induction es generalizing proj with
  | nil => rfl
  | cons e rest ih =>
      cases e with
      | ok p => simp [processEntries, entryPaths, ih]
      | err => simp [processEntries, entryPaths, ih]

/-- The matched flag of the entry loop holds exactly when some entry is a
matched path. -/
lemma processEntries_matched {σ : Type} (act : σ → Path → σ × Bool) (proj : σ)
    (es : List GlobEntry) :
    (processEntries act proj es).matched = anyOk es := by
  induction es generalizing proj with
  | nil => rfl
  | cons e rest ih =>
      cases e with
      | ok p => simp [processEntries, anyOk]
      | err => simp [processEntries, anyOk, ih]

/-- The attempted paths of one pattern are a pure function of the glob
behaviour. -/
lemma processOnePattern_attempted {σ : Type} (globFn : String → GlobResult)
    (act : σ → Path → σ × Bool) (proj : σ) (pat : String) :
    (processOnePattern globFn act proj pat).attempted = patternTrace globFn pat := by
  cases hg : globFn pat with
  | invalid => simp [processOnePattern, patternTrace, hg]
  | entries es =>
      have hA := processEntries_attempted act proj es
      have hM := processEntries_matched act proj es
      cases hok : anyOk es <;> cases hmeta : containsMeta pat <;>
        simp [processOnePattern, patternTrace, hg, hA, hM, hok, hmeta]

/-- The whole loop's attempted paths are the per-pattern traces concatenated
in input order. -/
lemma patternLoop_attempted {σ : Type} (globFn : String → GlobResult)
    (act : σ → Path → σ × Bool) (proj : σ) (pats : List String) :
    (patternLoop globFn act proj pats).attempted =
      pats.flatMap (patternTrace globFn) := by
  induction pats generalizing proj with
  | nil => rfl
  | cons pat rest ih =>
      simp [patternLoop, processOnePattern_attempted, ih]

/-- A list of entries that are all iteration errors leaves the project
untouched, counts one error per entry, matches nothing and attempts no
path. -/
lemma processEntries_allErr {σ : Type} (act : σ → Path → σ × Bool) (proj : σ) :
    ∀ es : List GlobEntry, (∀ e ∈ es, e = GlobEntry.err) →
      processEntries act proj es = ⟨proj, 0, es.length, false, []⟩
  | [], _ => rfl
  | e :: rest, h => by
      have he : e = GlobEntry.err := h e (by simp)
      subst he
      have ih := processEntries_allErr act proj rest (fun x hx => h x (by simp [hx]))
      simp [processEntries, ih]
      omega

/-- A run whose patterns all contain a metacharacter and all glob to nothing
only accumulates the patterns as no-match records. -/
lemma patternLoop_meta_noMatch {σ : Type} (globFn : String → GlobResult)
    (act : σ → Path → σ × Bool) (proj : σ) :
    ∀ pats : List String,
      (∀ p ∈ pats, containsMeta p = true ∧ globFn p = GlobResult.entries []) →
      patternLoop globFn act proj pats = ⟨proj, 0, 0, pats, []⟩
  | [], _ => rfl
  | pat :: rest, h => by
      obtain ⟨hm, hg⟩ := h pat (by simp)
      have ih := patternLoop_meta_noMatch globFn act proj rest
        (fun q hq => h q (by simp [hq]))
      simp [patternLoop, processOnePattern, hg, hm, processEntries, ih]

/-! The claims about `process_file_patterns` and `handle_project_action`. -/

/-- C1: for a pattern whose glob expansion succeeds with zero paths, the
pattern is retried exactly once as a literal path (handed to the marking
action) when it contains none of the metacharacters, and is recorded as a
no-match without any literal retry when it contains one. -/
theorem glob_zero_match_literal_fallback {σ : Type} (globFn : String → GlobResult)
    (act : σ → Path → σ × Bool) (proj : σ) (pat : String)
    (h : globFn pat = GlobResult.entries []) :
    (containsMeta pat = false →
        (processOnePattern globFn act proj pat).attempted = [pat] ∧
        (processOnePattern globFn act proj pat).noMatch = none) ∧
    (containsMeta pat = true →
        (processOnePattern globFn act proj pat).attempted = [] ∧
        (processOnePattern globFn act proj pat).noMatch = some pat) := by
  constructor <;> intro hm <;> simp [processOnePattern, h, processEntries, hm]

/-- Witness for C1 at the spec's own examples: the literal-looking
`notes.txt` is attempted once as a literal path, the glob-looking `*.txt`
becomes a no-match record with no attempt. -/
theorem glob_zero_match_literal_fallback_witness :
    containsMeta ("notes.txt") = false ∧
    (processOnePattern (fun _ => GlobResult.entries []) (fun (s : Unit) (_ : Path) => (s, true))
        () ("notes.txt")).attempted = [("notes.txt")] ∧
    (processOnePattern (fun _ => GlobResult.entries []) (fun (s : Unit) (_ : Path) => (s, true))
        () ("notes.txt")).noMatch = none ∧
    containsMeta ("*.txt") = true ∧
    (processOnePattern (fun _ => GlobResult.entries []) (fun (s : Unit) (_ : Path) => (s, true))
        () ("*.txt")).attempted = [] ∧
    (processOnePattern (fun _ => GlobResult.entries []) (fun (s : Unit) (_ : Path) => (s, true))
        () ("*.txt")).noMatch = some ("*.txt") := by
  have h1 := glob_zero_match_literal_fallback (fun _ => GlobResult.entries [])
    (fun (s : Unit) (_ : Path) => (s, true)) () ("notes.txt") rfl
  have h2 := glob_zero_match_literal_fallback (fun _ => GlobResult.entries [])
    (fun (s : Unit) (_ : Path) => (s, true)) () ("*.txt") rfl
  exact ⟨by decide, (h1.1 (by decide)).1, (h1.1 (by decide)).2,
    by decide, (h2.2 (by decide)).1, (h2.2 (by decide)).2⟩

/-- C2: in a bulk mark run the sequence of paths the marking action is
attempted on does not depend on the action's successes or failures (so one
failure never stops the remaining files or patterns), and after the summary
tally the process exits non-zero exactly when the error count is positive. -/
theorem bulk_mark_collects_errors {σ₁ σ₂ : Type} (globFn : String → GlobResult)
    (act₁ : σ₁ → Path → σ₁ × Bool) (act₂ : σ₂ → Path → σ₂ × Bool)
    (proj₁ : σ₁) (proj₂ : σ₂) (pats : List String) :
    (process_file_patterns globFn act₁ proj₁ pats).attempted =
      (process_file_patterns globFn act₂ proj₂ pats).attempted ∧
    ((process_file_patterns globFn act₁ proj₁ pats).exitNonZero = true ↔
      0 < (process_file_patterns globFn act₁ proj₁ pats).errorCount) := by
  constructor
  · simp [process_file_patterns, patternLoop_attempted]
  · simp [process_file_patterns]

/-- C3: with the `GOOGLE_API_KEY` environment variable unset, a translate
action exits before making any library call, the variable having been read
exactly once; and for a translate action the variable is read exactly once
per invocation whatever its value. -/
theorem translate_requires_credentials (libOk : LibCall → Bool)
    (globFn : String → GlobResult) (a : ProjectAction)
    (hT : isTranslateAction a = true) :
    (handle_project_action none libOk globFn a).calls = [] ∧
    (handle_project_action none libOk globFn a).exited = true ∧
    (handle_project_action none libOk globFn a).envChecks = 1 ∧
    (∀ env : Option String, (handle_project_action env libOk globFn a).envChecks = 1) := by
  refine ⟨?_, ?_, ?_, ?_⟩
  · simp [handle_project_action, hT]
  · simp [handle_project_action, hT]
  · simp [handle_project_action, hT]
  · intro env
    cases env with
    | none => simp [handle_project_action, hT]
    | some k => cases a <;> simp_all [handle_project_action, isTranslateAction]

/-- Witness for C3: `TranslateAll` with the variable unset makes no library
call, exits non-zero, and read the variable once. -/
theorem translate_requires_credentials_witness :
    isTranslateAction (ProjectAction.translateAll Language.french) = true ∧
    (handle_project_action none (fun _ => true) (fun _ => GlobResult.entries [])
        (ProjectAction.translateAll Language.french)).calls = [] ∧
    (handle_project_action none (fun _ => true) (fun _ => GlobResult.entries [])
        (ProjectAction.translateAll Language.french)).exited = true ∧
    (handle_project_action none (fun _ => true) (fun _ => GlobResult.entries [])
        (ProjectAction.translateAll Language.french)).envChecks = 1 := by
  have h := translate_requires_credentials (fun _ => true) (fun _ => GlobResult.entries [])
    (ProjectAction.translateAll Language.french) rfl
  exact ⟨rfl, h.1, h.2.1, h.2.2.1⟩

/-- C4: a malformed pattern counts exactly one error, attempts no file
action, is never retried as a literal path, and is not recorded as a
no-match — with no hypothesis on its metacharacters. -/
theorem invalid_pattern_counted_and_skipped {σ : Type} (globFn : String → GlobResult)
    (act : σ → Path → σ × Bool) (proj : σ) (pat : String)
    (h : globFn pat = GlobResult.invalid) :
    (processOnePattern globFn act proj pat).errs = 1 ∧
    (processOnePattern globFn act proj pat).succ = 0 ∧
    (processOnePattern globFn act proj pat).attempted = [] ∧
    (processOnePattern globFn act proj pat).noMatch = none := by
  simp [processOnePattern, h]

/-- Witness for C4 at a metacharacter-free pattern, the case where skipping
the literal retry is observable. -/
theorem invalid_pattern_counted_and_skipped_witness :
    (processOnePattern (fun _ => GlobResult.invalid) (fun (s : Unit) (_ : Path) => (s, true))
        () ("a.txt")).errs = 1 ∧
    (processOnePattern (fun _ => GlobResult.invalid) (fun (s : Unit) (_ : Path) => (s, true))
        () ("a.txt")).succ = 0 ∧
    (processOnePattern (fun _ => GlobResult.invalid) (fun (s : Unit) (_ : Path) => (s, true))
        () ("a.txt")).attempted = [] ∧
    (processOnePattern (fun _ => GlobResult.invalid) (fun (s : Unit) (_ : Path) => (s, true))
        () ("a.txt")).noMatch = none :=
  invalid_pattern_counted_and_skipped (fun _ => GlobResult.invalid)
    (fun (s : Unit) (_ : Path) => (s, true)) () ("a.txt") rfl

/-- C5: the paths acted on are exactly the concatenation, in input order, of
each pattern's trace (glob results in glob order, then the literal fallback
when taken); the right-hand side depends only on the pattern list and the
glob behaviour, so the resolution is deterministic for a fixed directory
state. -/
theorem resolution_ordered_deterministic {σ : Type} (globFn : String → GlobResult)
    (act : σ → Path → σ × Bool) (proj : σ) (pats : List String) :
    (process_file_patterns globFn act proj pats).attempted =
      pats.flatMap (patternTrace globFn) := by
  simp [process_file_patterns, patternLoop_attempted]

/-- C9: a metacharacter-free pattern whose glob expansion yields only
iteration errors counts one error per entry, is not considered matched, and
is still retried once as a literal path, contributing that attempt's own
success or error on top of the entry errors. -/
theorem entry_errors_then_literal_fallback {σ : Type} (globFn : String → GlobResult)
    (act : σ → Path → σ × Bool) (proj : σ) (pat : String) (es : List GlobEntry)
    (hg : globFn pat = GlobResult.entries es)
    (he : ∀ e ∈ es, e = GlobEntry.err)
    (hm : containsMeta pat = false) :
    (processOnePattern globFn act proj pat).errs =
      es.length + (if (act proj pat).2 then 0 else 1) ∧
    (processOnePattern globFn act proj pat).succ = (if (act proj pat).2 then 1 else 0) ∧
    (processOnePattern globFn act proj pat).attempted = [pat] ∧
    (processOnePattern globFn act proj pat).noMatch = none := by
  have h3 := processEntries_allErr act proj es he
  simp [processOnePattern, hg, h3, hm]

/-- Witness for C9: two entry errors and a failing literal attempt yield
three errors for the single pattern. -/
theorem entry_errors_then_literal_fallback_witness :
    containsMeta ("notes.txt") = false ∧
    (processOnePattern (fun _ => GlobResult.entries [GlobEntry.err, GlobEntry.err])
        (fun (s : Unit) (_ : Path) => (s, false)) () ("notes.txt")).errs = 3 ∧
    (processOnePattern (fun _ => GlobResult.entries [GlobEntry.err, GlobEntry.err])
        (fun (s : Unit) (_ : Path) => (s, false)) () ("notes.txt")).succ = 0 ∧
    (processOnePattern (fun _ => GlobResult.entries [GlobEntry.err, GlobEntry.err])
        (fun (s : Unit) (_ : Path) => (s, false)) () ("notes.txt")).attempted = [("notes.txt")] ∧
    (processOnePattern (fun _ => GlobResult.entries [GlobEntry.err, GlobEntry.err])
        (fun (s : Unit) (_ : Path) => (s, false)) () ("notes.txt")).noMatch = none := by
  have h := entry_errors_then_literal_fallback
    (fun _ => GlobResult.entries [GlobEntry.err, GlobEntry.err])
    (fun (s : Unit) (_ : Path) => (s, false)) () ("notes.txt") [GlobEntry.err, GlobEntry.err]
    rfl (by decide) (by decide)
  exact ⟨by decide, h.1, h.2.1, h.2.2.1, h.2.2.2⟩

/-- C10: when every pattern contains a metacharacter and globs to nothing,
the run attempts no action, counts zero errors and zero successes, records
every pattern in order as a warning emitted after the loop, and does not
exit non-zero. -/
theorem meta_no_match_warning_only {σ : Type} (globFn : String → GlobResult)
    (act : σ → Path → σ × Bool) (proj : σ) (pats : List String)
    (h : ∀ p ∈ pats, containsMeta p = true ∧ globFn p = GlobResult.entries []) :
    (process_file_patterns globFn act proj pats).errorCount = 0 ∧
    (process_file_patterns globFn act proj pats).successCount = 0 ∧
    (process_file_patterns globFn act proj pats).noMatchWarnings = pats ∧
    (process_file_patterns globFn act proj pats).attempted = [] ∧
    (process_file_patterns globFn act proj pats).exitNonZero = false := by
  simp [process_file_patterns, patternLoop_meta_noMatch globFn act proj pats h]

/-- Witness for C10: a run over two glob-looking patterns matching nothing
reports zero errors and exits normally. -/
theorem meta_no_match_warning_only_witness :
    (process_file_patterns (fun _ => GlobResult.entries [])
        (fun (s : Unit) (_ : Path) => (s, true)) () [("*.txt"), ("?x")]).errorCount = 0 ∧
    (process_file_patterns (fun _ => GlobResult.entries [])
        (fun (s : Unit) (_ : Path) => (s, true)) () [("*.txt"), ("?x")]).successCount = 0 ∧
    (process_file_patterns (fun _ => GlobResult.entries [])
        (fun (s : Unit) (_ : Path) => (s, true)) () [("*.txt"), ("?x")]).noMatchWarnings =
      [("*.txt"), ("?x")] ∧
    (process_file_patterns (fun _ => GlobResult.entries [])
        (fun (s : Unit) (_ : Path) => (s, true)) () [("*.txt"), ("?x")]).attempted = [] ∧
    (process_file_patterns (fun _ => GlobResult.entries [])
        (fun (s : Unit) (_ : Path) => (s, true)) () [("*.txt"), ("?x")]).exitNonZero = false :=
  meta_no_match_warning_only (fun _ => GlobResult.entries [])
    (fun (s : Unit) (_ : Path) => (s, true)) () [("*.txt"), ("?x")] (by decide)

/-! Claims about the spec-modelled Manifest Store. -/

/-- Listing a cons manifest is the head's path (when translatable) followed
by the listing of the tail. -/
lemma list_translatable_cons (q : Path) (s : FileStatus) (rest : Manifest) :
    list_translatable ((q, s) :: rest) =
      (if s = FileStatus.translatable then [q] else []) ++ list_translatable rest := by
  cases s <;> simp [list_translatable]

/-- A path that is no manifest key does not occur in the listing. -/
lemma list_translatable_count_zero (p : Path) :
    ∀ m : Manifest, (∀ e ∈ m, ¬ e.1 = p) → (list_translatable m).count p = 0
  | [], _ => rfl
  | (q, s) :: rest, h => by
      have hq : ¬ q = p := h (q, s) (by simp)
      have ih := list_translatable_count_zero p rest (fun e he => h e (by simp [he]))
      rw [list_translatable_cons]
      cases s <;> simp [List.count_cons, List.count_append, hq, ih]

/-- Re-marking touches no entry whose key differs from the marked path. -/
lemma manifest_update_id (p : Path) (st : FileStatus) :
    ∀ m : Manifest, (∀ e ∈ m, ¬ e.1 = p) →
      m.map (fun e => if e.1 == p then (p, st) else e) = m
  | [], _ => rfl
  | (q, s) :: rest, h => by
      have hq : ¬ q = p := h (q, s) (by simp)
      have ih := manifest_update_id p st rest (fun e he => h e (by simp [he]))
      simp only [List.map_cons]
      rw [ih]
      simp [hq]

/-- Overwriting the status of a present key to translatable makes the
listing contain that key exactly once, given unique keys. -/
lemma count_after_update (p : Path) :
    ∀ m : Manifest, (m.map Prod.fst).Nodup → m.any (fun e => e.1 == p) = true →
      (list_translatable
        (m.map (fun e => if e.1 == p then (p, FileStatus.translatable) else e))).count p = 1
  | [], _, hany => by simp at hany
  | (q, s) :: rest, hnd, hany => by
      rw [List.map_cons, List.nodup_cons] at hnd
      obtain ⟨hq_notin, hnd_rest⟩ := hnd
      by_cases hq : q = p
      · subst hq
        have hrest : ∀ e ∈ rest, ¬ e.1 = q := by
          intro e he heq
          apply hq_notin
          have hmem : e.1 ∈ List.map Prod.fst rest := List.mem_map_of_mem Prod.fst he
          rw [heq] at hmem
          exact hmem
        rw [List.map_cons, manifest_update_id q FileStatus.translatable rest hrest]
        have hz := list_translatable_count_zero q rest hrest
        simp [list_translatable_cons, List.count_cons, hz]
      · have hbq : (q == p) = false := by simpa using hq
        have hany_rest : rest.any (fun e => e.1 == p) = true := by
          simpa [hbq] using hany
        have ih := count_after_update p rest hnd_rest hany_rest
        rw [List.map_cons]
        simp only [hbq, Bool.false_eq_true, if_false]
        rw [list_translatable_cons]
        cases s <;> simp [List.count_cons, List.count_append, hq] <;> simpa using ih

/-- C6: for a path that exists under the source directory, marking it
translatable succeeds and the translatable listing then contains the path
exactly once — both when the path is new (appended) and when it re-marks an
existing entry (overwritten in place, no duplicate created); the manifest's
keys being unique (spec section 3) is the standing invariant. -/
theorem mark_then_list_exactly_once (existsOnDisk inSourceDir : Path → Bool)
    (m : Manifest) (p : Path)
    (hs : inSourceDir p = true) (he : existsOnDisk p = true)
    (hnd : (m.map Prod.fst).Nodup) :
    (mark existsOnDisk inSourceDir m p FileStatus.translatable).map
      (fun m2 => (list_translatable m2).count p) = Except.ok 1 := by
  by_cases hany : m.any (fun e => e.1 == p) = true
  · have hmark : mark existsOnDisk inSourceDir m p FileStatus.translatable =
        Except.ok (m.map (fun e => if e.1 == p then (p, FileStatus.translatable) else e)) := by
      simp [mark, hs, he, hany]
    rw [hmark]
    simp only [Except.map]
    exact congrArg Except.ok (count_after_update p m hnd hany)
  · have hmark : mark existsOnDisk inSourceDir m p FileStatus.translatable =
        Except.ok (m ++ [(p, FileStatus.translatable)]) := by
      simp [mark, hs, he, hany]
    rw [hmark]
    simp only [Except.map]
    have hnomem : ∀ e ∈ m, ¬ e.1 = p := by
      intro e hem heq
      exact hany (List.any_eq_true.mpr ⟨e, hem, by simp [heq]⟩)
    have happ : list_translatable (m ++ [(p, FileStatus.translatable)]) =
        list_translatable m ++ [p] := by
      simp [list_translatable]
    rw [happ, List.count_append, list_translatable_count_zero p m hnomem]
    simp

/-- Witness for C6: marking a fresh path in a one-entry manifest lists it
exactly once. -/
theorem mark_then_list_exactly_once_witness :
    ((([(("a.txt"), FileStatus.untranslatable)] : Manifest).map Prod.fst).Nodup) ∧
    (mark (fun _ => true) (fun _ => true)
        [(("a.txt"), FileStatus.untranslatable)] ("b.txt") FileStatus.translatable).map
      (fun m2 => (list_translatable m2).count ("b.txt")) = Except.ok 1 :=
  ⟨by decide, mark_then_list_exactly_once (fun _ => true) (fun _ => true)
    [(("a.txt"), FileStatus.untranslatable)] ("b.txt") rfl rfl (by decide)⟩

/-! Claims about the spec-modelled Translation Submission Pipeline. -/

/-- Closed form of `translate_all`: outcomes, tally and failed paths in
terms of map and filter over the submitted files. -/
lemma translate_all_eq (provider : Path → ProviderOutcome) :
    ∀ files : List Path,
      translate_all provider files =
        ⟨files.map (fun p => (p, outcomeOk (provider p))),
          (files.filter (fun p => outcomeOk (provider p))).length,
          (files.filter (fun p => !outcomeOk (provider p))).length,
          files.filter (fun p => !outcomeOk (provider p))⟩
  | [] => rfl
  | p :: rest => by
      have ih := translate_all_eq provider rest
      cases h : outcomeOk (provider p) <;>
        simp [translate_all, ih, h, List.filter_cons, Nat.add_comm]

/-- A filter and its complement split a list's length. -/
lemma filter_length_split {α : Type} (P : α → Bool) :
    ∀ l : List α, (l.filter P).length + (l.filter (fun a => !P a)).length = l.length
  | [] => rfl
  | a :: l => by
      have ih := filter_length_split P l
      cases h : P a <;> simp [List.filter_cons, h] <;> omega

/-- C7: `translate_all` attempts every translatable file in order even when
some fail — the reported outcomes cover exactly the submitted files — and
the aggregate reports the success and failure counts and which paths
failed; in particular over three files with the second failing permanently
it reports outcomes for files one and three and a tally of two successes,
one failure. -/
theorem translate_all_attempts_all (provider : Path → ProviderOutcome) (files : List Path) :
    (translate_all provider files).outcomes.map Prod.fst = files ∧
    (translate_all provider files).successes =
      (files.filter (fun p => outcomeOk (provider p))).length ∧
    (translate_all provider files).failedPaths =
      files.filter (fun p => !outcomeOk (provider p)) ∧
    (translate_all provider files).failures =
      (translate_all provider files).failedPaths.length ∧
    (translate_all provider files).successes + (translate_all provider files).failures =
      files.length ∧
    translate_all prov3 [("file1"), ("file2"), ("file3")] =
      ⟨[(("file1"), true), (("file2"), false), (("file3"), true)], 2, 1, [("file2")]⟩ := by
  rw [translate_all_eq]
  refine ⟨?_, rfl, rfl, rfl, ?_, ?_⟩
  · simp only [List.map_map]
    exact List.map_id files
  · exact filter_length_split _ files
  · rfl

/-! Claims about the spec-modelled Synchronizer. -/

/-- Looking up after a copy sees the copied content at the copied path and
the previous content elsewhere. -/
lemma lookupFile_writeFile (fs : FileMap) (p q : Path) (c : Nat) :
    lookupFile (writeFile fs p c) q = if p == q then some c else lookupFile fs q := rfl

/-- After a pass with no failed copy, every untranslatable path present in
the source is mirrored with the source's content; the disjunctive
hypothesis also lets paths already in agreement ride through the
induction. -/
lemma syncDir_success_lookup (copyOk : Path → Bool) (src : FileMap) :
    ∀ (unt : List Path) (tfs : FileMap),
      (syncDir copyOk src unt tfs).failed = [] →
      ∀ (v : Path) (c : Nat), lookupFile src v = some c →
        (lookupFile tfs v = some c ∨ v ∈ unt) →
        lookupFile (syncDir copyOk src unt tfs).fs v = some c
  | [], tfs, _, v, c, hv, hd => by
      rcases hd with h | h
      · simpa [syncDir] using h
      · simp at h
  | u :: rest, tfs, hfail, v, c, hv, hd => by
      cases hs : lookupFile src u with
      | none =>
          have hne : ¬ v = u := by
            intro hvu
            rw [hvu, hs] at hv
            exact Option.noConfusion hv
          simp only [syncDir, hs] at hfail ⊢
          apply syncDir_success_lookup copyOk src rest tfs hfail v c hv
          rcases hd with h | h
          · exact Or.inl h
          · rcases List.mem_cons.mp h with h1 | h1
            · exact absurd h1 hne
            · exact Or.inr h1
      | some cu =>
          cases ht : lookupFile tfs u == some cu with
          | true =>
              simp only [syncDir, hs, ht, if_true] at hfail ⊢
              apply syncDir_success_lookup copyOk src rest tfs hfail v c hv
              by_cases hvu : v = u
              · subst hvu
                rw [hv] at hs
                have hcu : cu = c := by
                  injection hs with h1
                  exact h1.symm
                subst hcu
                exact Or.inl (beq_iff_eq.mp ht)
              · rcases hd with h | h
                · exact Or.inl h
                · rcases List.mem_cons.mp h with h1 | h1
                  · exact absurd h1 hvu
                  · exact Or.inr h1
          | false =>
              cases hc : copyOk u with
              | true =>
                  simp only [syncDir, hs, ht, hc, Bool.false_eq_true, if_false,
                    if_true] at hfail ⊢
                  apply syncDir_success_lookup copyOk src rest (writeFile tfs u cu) hfail v c hv
                  by_cases hvu : v = u
                  · subst hvu
                    rw [hv] at hs
                    have hcu : cu = c := by
                      injection hs with h1
                      exact h1.symm
                    subst hcu
                    left
                    simp [lookupFile_writeFile]
                  · rcases hd with h | h
                    · left
                      rw [lookupFile_writeFile]
                      have : (u == v) = false := by simpa using fun hh => hvu hh.symm
                      simp [this, h]
                    · rcases List.mem_cons.mp h with h1 | h1
                      · exact absurd h1 hvu
                      · exact Or.inr h1
              | false =>
                  simp only [syncDir, hs, ht, hc, Bool.false_eq_true, if_false] at hfail
                  exact absurd hfail (by simp)

/-- A directory already in agreement with the source on every untranslatable
path is left untouched: no copies, no failures. -/
lemma syncDir_noop (copyOk : Path → Bool) (src : FileMap) :
    ∀ (unt : List Path) (tfs : FileMap),
      (∀ u ∈ unt, ∀ c, lookupFile src u = some c → lookupFile tfs u = some c) →
      syncDir copyOk src unt tfs = ⟨tfs, 0, []⟩
  | [], tfs, _ => rfl
  | u :: rest, tfs, h => by
      have ih := syncDir_noop copyOk src rest tfs (fun x hx => h x (List.mem_cons_of_mem u hx))
      cases hs : lookupFile src u with
      | none => simp [syncDir, hs, ih]
      | some c =>
          have ht : lookupFile tfs u = some c := h u (by simp) c hs
          simp [syncDir, hs, ht, ih]

/-- C8: synchronization is idempotent — after a successful pass, running the
pass again with the same manifest, source contents and target set performs
zero copies, fails on nothing (success both times), and leaves every target
directory unchanged. -/
theorem sync_idempotent (copyOk : Language → Path → Bool) (src : FileMap)
    (unt : List Path) (targets : List (Language × FileMap))
    (h : (sync_files copyOk src unt targets).failed = []) :
    (sync_files copyOk src unt (sync_files copyOk src unt targets).targets).copies = 0 ∧
    (sync_files copyOk src unt (sync_files copyOk src unt targets).targets).failed = [] ∧
    (sync_files copyOk src unt (sync_files copyOk src unt targets).targets).targets =
      (sync_files copyOk src unt targets).targets := by
  induction targets with
  | nil => simp [sync_files]
  | cons t rest ih =>
      obtain ⟨l, tfs⟩ := t
      simp only [sync_files] at h
      rw [List.append_eq_nil] at h
      obtain ⟨h1, h2⟩ := h
      rw [List.map_eq_nil_iff] at h1
      have hag : ∀ u ∈ unt, ∀ c, lookupFile src u = some c →
          lookupFile (syncDir (copyOk l) src unt tfs).fs u = some c :=
        fun u hu c hc => syncDir_success_lookup (copyOk l) src unt tfs h1 u c hc (Or.inr hu)
      have hnoop := syncDir_noop (copyOk l) src unt (syncDir (copyOk l) src unt tfs).fs hag
      have ihr := ih h2
      simp only [sync_files, hnoop]
      exact ⟨by simp [ihr.1], by simp [ihr.2.1], by simp [ihr.2.2]⟩

/-- Witness for C8: one source file mirrored into one empty target directory
is copied once by the first pass and zero times by the second, both passes
succeeding. -/
theorem sync_idempotent_witness :
    (sync_files (fun _ _ => true) [(("a"), 1)] [("a")] [(Language.french, [])]).failed = [] ∧
    (sync_files (fun _ _ => true) [(("a"), 1)] [("a")] [(Language.french, [])]).copies = 1 ∧
    (sync_files (fun _ _ => true) [(("a"), 1)] [("a")]
        (sync_files (fun _ _ => true) [(("a"), 1)] [("a")]
          [(Language.french, [])]).targets).copies = 0 ∧
    (sync_files (fun _ _ => true) [(("a"), 1)] [("a")]
        (sync_files (fun _ _ => true) [(("a"), 1)] [("a")]
          [(Language.french, [])]).targets).failed = [] := by
  have h := sync_idempotent (fun _ _ => true) [(("a"), 1)] [("a")]
    [(Language.french, [])] rfl
  exact ⟨rfl, rfl, h.1, h.2.1⟩

end TDir
